import Mathlib

/-!
Shallow embedding of the `rogue_utils` spatial-indexing kernel
(`src/coord.rs`, `src/grid/mod.rs`, `src/grid/region.rs`, `src/grid/path.rs`).

Rust `isize` values are modelled as `Int` (the code never relies on
wraparound; `as usize` casts of values already checked non-negative are
modelled as `Int.toNat`).  Fallible operations (`Result`) are modelled as
`Except`; Rust panics (`unwrap`, slice-index panics) are modelled as the
error/`none` branch of the surrounding `Except`/`Option`, as noted at each
definition.  Rust `HashMap`s used only through `get`/`insert`/`contains_key`
are modelled as association lists with shadowing cons-insert; the `Region`
chunk map, whose `len()` is observable, uses lookup-before-insert and
in-place value update so that its length tracks the `HashMap` length.
-/

/-- Lattice point, `V2i(pub Vi, pub Vi)` from `src/coord.rs` (field `x` is the
Rust tuple field `.0`, `y` is `.1`). -/
@[ext]
structure V2i where
  x : Int
  y : Int
deriving DecidableEq, Repr

instance : Add V2i := ⟨fun a b => ⟨a.x + b.x, a.y + b.y⟩⟩
instance : Sub V2i := ⟨fun a b => ⟨a.x - b.x, a.y - b.y⟩⟩
instance : Mul V2i := ⟨fun a b => ⟨a.x * b.x, a.y * b.y⟩⟩

@[simp] theorem V2i.add_x (a b : V2i) : (a + b).x = a.x + b.x := rfl

@[simp] theorem V2i.add_y (a b : V2i) : (a + b).y = a.y + b.y := rfl

@[simp] theorem V2i.sub_x (a b : V2i) : (a - b).x = a.x - b.x := rfl

@[simp] theorem V2i.sub_y (a b : V2i) : (a - b).y = a.y - b.y := rfl

@[simp] theorem V2i.mul_x (a b : V2i) : (a * b).x = a.x * b.x := rfl

@[simp] theorem V2i.mul_y (a b : V2i) : (a * b).y = a.y * b.y := rfl

/-- `V2i::l1`: Manhattan norm `self.0.abs() + self.1.abs()`. -/
def V2i.l1 (v : V2i) : Int := (v.x.natAbs + v.y.natAbs : Nat)

/-- `V2i::div_euclid` (componentwise Euclidean division, `isize::div_euclid`). -/
def V2i.div_euclid (a b : V2i) : V2i := ⟨a.x.ediv b.x, a.y.ediv b.y⟩

/-- `V2i::rem_euclid` (componentwise Euclidean remainder, `isize::rem_euclid`). -/
def V2i.rem_euclid (a b : V2i) : V2i := ⟨a.x.emod b.x, a.y.emod b.y⟩

/-- `V2i::is_q1`: both components non-negative. -/
def V2i.is_q1 (v : V2i) : Bool := decide (0 ≤ v.x) && decide (0 ≤ v.y)

/-- `V2i::is_strict_q1`: both components strictly positive. -/
def V2i.is_strict_q1 (v : V2i) : Bool := decide (0 < v.x) && decide (0 < v.y)

/-- Axis-aligned integer rectangle `R2i` from `src/coord.rs`. -/
@[ext]
structure R2i where
  origin : V2i
  dim : V2i
deriving DecidableEq, Repr

/-- `R2i::origin_dim`: normalizes negative dimensions by flipping the origin. -/
def R2i.origin_dim (origin dim : V2i) : R2i :=
  let p1 : V2i × V2i :=
    if dim.x < 0 then (⟨origin.x - (-dim.x), origin.y⟩, ⟨-dim.x, dim.y⟩) else (origin, dim)
  let o := p1.1
  let d := p1.2
  if d.y < 0 then ⟨⟨o.x, o.y - (-d.y)⟩, ⟨d.x, -d.y⟩⟩ else ⟨o, d⟩

/-- `R2i::opp`: the corner opposite the origin, `origin + dim`. -/
def R2i.opp (r : R2i) : V2i := r.origin + r.dim

/-- Iterator state `R2iIter` from `src/coord.rs`. -/
structure R2iIter where
  rect : R2i
  current : V2i
deriving DecidableEq, Repr

/-- One step of `<R2iIter as Iterator>::next`. -/
def R2iIter.next (it : R2iIter) : Option (V2i × R2iIter) :=
  let cur := it.current
  let opp := it.rect.opp
  if cur.y ≥ opp.y then
    none
  else
    let cx := cur.x + 1
    let c2 : V2i := if cx ≥ opp.x then ⟨it.rect.origin.x, cur.y + 1⟩ else ⟨cx, cur.y⟩
    some (cur, ⟨it.rect, c2⟩)

/-- Collects the remaining items of an `R2iIter`.  The fuel argument makes the
recursion structural; `R2i.iterList` below always supplies enough fuel for the
iterator to run to completion. -/
def R2iIter.collect : Nat → R2iIter → List V2i
  | 0, _ => []
  | fuel + 1, it =>
    match it.next with
    | none => []
    | some (v, it2) => v :: R2iIter.collect fuel it2

/-- `R2i::iter().collect()`: the full item sequence of the rectangle iterator.
The iterator emits at most one item per lattice row of `[origin.y, opp.y)` per
column step, so `(dim.x + 2) * (dim.y + 2)` fuel is always sufficient. -/
def R2i.iterList (r : R2i) : List V2i :=
  R2iIter.collect ((r.dim.x.toNat + 2) * (r.dim.y.toNat + 2)) ⟨r, r.origin⟩

/-- Error enum of `src/grid/mod.rs`. -/
inductive Grid.Error where
  | NegativeDim : V2i → Grid.Error
  | BadDim : V2i → Nat → Grid.Error
  | OutOfBounds : V2i → Grid.Error
  | BadIndex : Nat → Grid.Error
deriving DecidableEq, Repr

/-- `Grid<T>` from `src/grid/mod.rs`: linear row-major store with an origin
offset.  The boxed slice is modelled as a `List`. -/
structure Grid (T : Type) where
  array : List T
  origin : V2i
  dim : V2i
deriving DecidableEq, Repr

/-- `Grid::from_boxed_slice`. -/
def Grid.from_boxed_slice {T : Type} (array : List T) (origin dim : V2i) :
    Except Grid.Error (Grid T) :=
  if ¬ dim.is_q1 then
    .error (.NegativeDim dim)
  else if dim.x.toNat * dim.y.toNat ≠ array.length then
    .error (.BadDim dim array.length)
  else
    .ok ⟨array, origin, dim⟩

/-- `Grid::from_vec` (delegates to `from_boxed_slice`). -/
def Grid.from_vec {T : Type} (v : List T) (origin dim : V2i) : Except Grid.Error (Grid T) :=
  Grid.from_boxed_slice v origin dim

/-- `Grid::from_generator`: generate one element per iterator item of the
rectangle `[origin, origin+dim)` and build the grid from the collected list. -/
def Grid.from_generator {T : Type} (gen : V2i → T) (origin dim : V2i) :
    Except Grid.Error (Grid T) :=
  if ¬ dim.is_q1 then
    .error (.NegativeDim dim)
  else
    Grid.from_boxed_slice ((R2i.origin_dim origin dim).iterList.map gen) origin dim

/-- `Grid::index_of`: row-major linear index of a point, bounds-checked. -/
def Grid.index_of {T : Type} (g : Grid T) (v : V2i) : Except Grid.Error Nat :=
  let d := v - g.origin
  if d.x < 0 ∨ d.y < 0 ∨ d.x ≥ g.dim.x ∨ d.y ≥ g.dim.y then
    .error (.OutOfBounds v)
  else
    .ok (d.y.toNat * g.dim.x.toNat + d.x.toNat)

/-- `Grid::v2i_of`: point of a linear index, checked against the store length. -/
def Grid.v2i_of {T : Type} (g : Grid T) (index : Nat) : Except Grid.Error V2i :=
  if index ≥ g.array.length then
    .error (.BadIndex index)
  else
    .ok ((⟨(index % g.dim.x.toNat : Nat), (index / g.dim.x.toNat : Nat)⟩ : V2i) + g.origin)

/-- `Grid::contains`. -/
def Grid.contains {T : Type} (g : Grid T) (v : V2i) : Bool :=
  match g.index_of v with
  | .ok _ => true
  | .error _ => false

/-- `Grid::get`: `self.index_of(v).map(|i| &self.array[i])`.  The `BadIndex`
branch models the Rust slice-indexing panic when the computed index exceeds the
store length; it is unreachable for any grid whose store length matches
`dim.x * dim.y` (the invariant every `Grid` constructor establishes). -/
def Grid.get {T : Type} (g : Grid T) (v : V2i) : Except Grid.Error T :=
  match g.index_of v with
  | .error e => .error e
  | .ok i =>
    match g.array.get? i with
    | some t => .ok t
    | none => .error (.BadIndex i)

/-- One element write through `Grid::get_mut` (`*grid.get_mut(v)? = t`).  As in
`Grid.get`, the `BadIndex` branch models the slice-indexing panic. -/
def Grid.set {T : Type} (g : Grid T) (v : V2i) (t : T) : Except Grid.Error (Grid T) :=
  match g.index_of v with
  | .error e => .error e
  | .ok i =>
    match g.array.get? i with
    | some _ => .ok { g with array := g.array.set i t }
    | none => .error (.BadIndex i)

/-- `Grid::from_default`: default-filled grid (`T: Default` becomes
`Inhabited`). -/
def Grid.from_default {T : Type} [Inhabited T] (origin dim : V2i) :
    Except Grid.Error (Grid T) :=
  if ¬ dim.is_q1 then
    .error (.NegativeDim dim)
  else
    Grid.from_vec (List.replicate (dim.x.toNat * dim.y.toNat) default) origin dim

/-- Association-list lookup, modelling `HashMap::get` for the maps of
`src/grid/region.rs` and `src/grid/path.rs` (first binding wins). -/
def alLookup {β : Type _} : List (V2i × β) → V2i → Option β
  | [], _ => none
  | (k, b) :: rest, q => if q = k then some b else alLookup rest q

/-- In-place value update at a key, modelling mutation through the `&mut`
reference that `HashMap::entry` returns (the key is already present). -/
def alUpdate {β : Type _} (l : List (V2i × β)) (k : V2i) (b : β) : List (V2i × β) :=
  l.map (fun p => if p.1 = k then (k, b) else p)

/-- Error enum of `src/grid/region.rs`. -/
inductive Region.Error where
  | NonPositiveDim : V2i → Region.Error
deriving DecidableEq, Repr

/-- `Region<T>` from `src/grid/region.rs`.  The chunk `HashMap<V2i, Grid<T>>`
is modelled as an association list whose length tracks `HashMap::len`; the
boxed `FnMut` generator is modelled as a pure function of
(invoking point, chunk coordinate, chunk origin, chunk dimension). -/
structure Region (T : Type) where
  grid_size : V2i
  grids : List (V2i × Grid T)
  grid_gen : Option (V2i → V2i → V2i → V2i → Grid T)

/-- `RegionConfig::build`: validates the chunk size and starts with no
chunks. -/
def Region.build {T : Type} (grid_size : V2i)
    (grid_gen : Option (V2i → V2i → V2i → V2i → Grid T)) :
    Except Region.Error (Region T) :=
  if grid_size.is_strict_q1 then
    .ok ⟨grid_size, [], grid_gen⟩
  else
    .error (.NonPositiveDim grid_size)

/-- `Region::grids()`: number of materialized chunks. -/
def Region.gridsCount {T : Type} (r : Region T) : Nat := r.grids.length

/-- `Region::get_grid_index`: chunk coordinate of a point. -/
def Region.get_grid_index {T : Type} (r : Region T) (v : V2i) : V2i :=
  v.div_euclid r.grid_size

/-- `Region::get_grid_offset`: in-chunk offset of a point. -/
def Region.get_grid_offset {T : Type} (r : Region T) (v : V2i) : V2i :=
  v.rem_euclid r.grid_size

/-- `Region::get_grid`: read-only chunk lookup, no allocation. -/
def Region.get_grid {T : Type} (r : Region T) (v : V2i) : Option (Grid T) :=
  alLookup r.grids (r.get_grid_index v)

/-- `Region::get_grid_mut`: returns the chunk containing `v`, creating and
registering it first if absent (`entry(gi).or_insert_with(...)`).  Returns the
chunk together with the region after the call; `none` models the `.unwrap()`
panic of the default-fill branch, which is unreachable when `grid_size` is
strictly positive. -/
def Region.get_grid_mut {T : Type} [Inhabited T] (r : Region T) (v : V2i) :
    Option (Grid T × Region T) :=
  let gi := r.get_grid_index v
  match alLookup r.grids gi with
  | some g => some (g, r)
  | none =>
    match r.grid_gen with
    | some gen =>
      let g := gen v gi (gi * r.grid_size) r.grid_size
      some (g, { r with grids := (gi, g) :: r.grids })
    | none =>
      match Grid.from_default (gi * r.grid_size) r.grid_size with
      | .ok g => some (g, { r with grids := (gi, g) :: r.grids })
      | .error _ => none

/-- `Region::get`: `self.get_grid(v).map(|g| g.get(v).unwrap())`.  The outer
`Option` is the chunk lookup; an inner `.error` models the `.unwrap()` panic on
a chunk that does not contain `v`. -/
def Region.get {T : Type} (r : Region T) (v : V2i) : Option (Except Grid.Error T) :=
  (r.get_grid v).map (fun g => g.get v)

/-- `Region::get_mut` observed as a read: allocates the owning chunk if
necessary and returns the element value together with the region after the
call.  `none` models the panics noted at `Region.get_grid_mut` / `Grid.get`. -/
def Region.get_mut {T : Type} [Inhabited T] (r : Region T) (v : V2i) :
    Option (T × Region T) :=
  match r.get_grid_mut v with
  | none => none
  | some (g, r1) =>
    match g.get v with
    | .ok t => some (t, r1)
    | .error _ => none

/-- One element write through `Region::get_mut` (`*r.get_mut(v) = t`): the
chunk is created if absent, then the element at `v` inside it is replaced.
`none` models the panics noted at `Region.get_grid_mut` / `Grid.set`. -/
def Region.write {T : Type} [Inhabited T] (r : Region T) (v : V2i) (t : T) :
    Option (Region T) :=
  match r.get_grid_mut v with
  | none => none
  | some (g, r1) =>
    match g.set v t with
    | .error _ => none
    | .ok g2 => some { r1 with grids := alUpdate r1.grids (r.get_grid_index v) g2 }

/-- Shape invariant of the chunk map: every materialized chunk covers exactly
the rectangle requested at its creation.  Default-filled chunks satisfy it by
construction; a configured generator is trusted to return grids of the
requested origin and dimension. -/
def Region.chunksWf {T : Type} (r : Region T) : Prop :=
  ∀ k g, alLookup r.grids k = some g →
    g.origin = k * r.grid_size ∧ g.dim = r.grid_size ∧
    g.array.length = r.grid_size.x.toNat * r.grid_size.y.toNat

/-- Error enum of `src/grid/path.rs`. -/
inductive Path.Error where
  | Disconnected : Path.Error
deriving DecidableEq, Repr

/-- Movement topology marker (`L1` = 4-connected, `Linf` = 8-connected),
selecting the `Neighbors` impl of `src/grid/path.rs`. -/
inductive Topology where
  | L1 : Topology
  | Linf : Topology
deriving DecidableEq, Repr

/-- `<V2i as Neighbors<N>>::neighbors`: candidate neighbor points of `v`, in
exactly the push order of the source. -/
def neighborsList : Topology → V2i → List V2i
  | .L1, v => [v + ⟨1, 0⟩, v + ⟨0, 1⟩, v + ⟨-1, 0⟩, v + ⟨0, -1⟩]
  | .Linf, v =>
    [v + ⟨1, 0⟩, v + ⟨1, 1⟩, v + ⟨0, 1⟩, v + ⟨-1, 1⟩,
     v + ⟨-1, 0⟩, v + ⟨-1, -1⟩, v + ⟨0, -1⟩, v + ⟨1, -1⟩]

/-- Open-set entry `State` of `src/grid/path.rs`; its `Ord` compares `cost`
only. -/
structure State where
  node : V2i
  cost : Nat
deriving DecidableEq, Repr

/-- Default entry used only to satisfy totality of list indexing inside the
heap routines; every index actually accessed is in bounds. -/
def heapDflt : State := ⟨⟨0, 0⟩, 0⟩

/-- Swap two positions of the backing store (the net effect of the hole chains
in Rust's `BinaryHeap` sift routines). -/
def lswap (l : List State) (i j : Nat) : List State :=
  match l.get? i, l.get? j with
  | some a, some b => (l.set i b).set j a
  | _, _ => l

/-- `BinaryHeap::sift_up` on a `BinaryHeap<Reverse<State>>`: the entry at `pos`
moves toward the root while its cost is strictly below its parent's.  Fuel
`pos + 1` (supplied by the callers) always suffices since the position
strictly decreases. -/
def siftUp : Nat → List State → Nat → Nat → List State
  | 0, l, _, _ => l
  | fuel + 1, l, start, pos =>
    if start < pos then
      let parent := (pos - 1) / 2
      if (l.getD pos heapDflt).cost < (l.getD parent heapDflt).cost then
        siftUp fuel (lswap l pos parent) start parent
      else l
    else l

/-- `BinaryHeap::push`: append, then sift up from the last position. -/
def heapPush (l : List State) (x : State) : List State :=
  siftUp (l.length + 1) (l ++ [x]) 0 l.length

/-- Descent phase of `BinaryHeap::sift_down_to_bottom`: walk the hole to the
bottom, always taking the lower-cost child (the right child on ties, as in the
source's `child += (hole.get(child) <= hole.get(child + 1)) as usize` under
`Reverse` ordering).  Fuel `len + 1` always suffices since the position
strictly increases. -/
def siftDownLoop : Nat → List State → Nat → List State × Nat
  | 0, l, pos => (l, pos)
  | fuel + 1, l, pos =>
    let endd := l.length
    let child := 2 * pos + 1
    if child < endd - 1 then
      let child2 :=
        if (l.getD (child + 1) heapDflt).cost ≤ (l.getD child heapDflt).cost then child + 1
        else child
      siftDownLoop fuel (lswap l pos child2) child2
    else if child = endd - 1 then (lswap l pos child, child)
    else (l, pos)

/-- `BinaryHeap::sift_down_to_bottom`: descend the hole to the bottom, then
sift the moved entry back up toward the original position. -/
def siftDownToBottom (l : List State) (pos : Nat) : List State :=
  match siftDownLoop (l.length + 1) l pos with
  | (l2, pos2) => siftUp (pos2 + 1) l2 pos pos2

/-- `BinaryHeap::pop` on a `BinaryHeap<Reverse<State>>`: remove the last
entry; if entries remain, it replaces the root (which is returned) and is
sifted down to the bottom. -/
def heapPop (l : List State) : Option (State × List State) :=
  match l.getLast? with
  | none => none
  | some last =>
    let l1 := l.dropLast
    if l1.length = 0 then some (last, l1)
    else some (l1.getD 0 heapDflt, siftDownToBottom (l1.set 0 last) 0)

/-- One relaxation step of the `for neigh in neighbors` loop of `path`:
skip impassable neighbors, otherwise update `cost`/`back` and push when the
tentative cost improves.  `none` models the `cost.get(&current.node).unwrap()`
panic, unreachable since every popped node holds a cost entry. -/
def relaxOne (allow : V2i → Bool) (goal current : V2i)
    (st : List (V2i × V2i) × List (V2i × Nat) × List State) (nb : V2i) :
    Option (List (V2i × V2i) × List (V2i × Nat) × List State) :=
  if allow nb then
    match alLookup st.2.1 current with
    | none => none
    | some g =>
      let est := g + 1
      let doUpd :=
        match alLookup st.2.1 nb with
        | none => true
        | some c => decide (est < c)
      if doUpd then
        some ((nb, current) :: st.1, (nb, est) :: st.2.1,
              heapPush st.2.2 ⟨nb, est + (nb - goal).l1.toNat⟩)
      else some st
  else some st

/-- The full neighbor loop of `path`, relaxing each generated neighbor in
order. -/
def relaxAll (allow : V2i → Bool) (goal current : V2i) :
    List V2i → List (V2i × V2i) × List (V2i × Nat) × List State →
    Option (List (V2i × V2i) × List (V2i × Nat) × List State)
  | [], st => some st
  | nb :: rest, st =>
    match relaxOne allow goal current st nb with
    | none => none
    | some st2 => relaxAll allow goal current rest st2

/-- Path reconstruction loop of `path`: follow `back` links from the goal until
a node with no predecessor, building the goal-to-start list.  `none` models
nontermination on a cyclic predecessor map (never produced by the search). -/
def reconstruct (back : List (V2i × V2i)) : Nat → V2i → Option (List V2i)
  | 0, _ => none
  | fuel + 1, current =>
    match alLookup back current with
    | none => some [current]
    | some nxt => (reconstruct back fuel nxt).map (fun m => current :: m)

/-- The `while let Some(visit) = open.pop()` loop of `path`.  `none` models
either fuel exhaustion (the loop running longer than `fuel` iterations) or one
of the panics noted at `relaxOne`/`reconstruct`. -/
def searchLoop (N : Topology) (allow : V2i → Bool) (goal : V2i) :
    Nat → List (V2i × V2i) → List (V2i × Nat) → List State →
    Option (Except Path.Error (List V2i))
  | 0, _, _, _ => none
  | fuel + 1, back, cost, openS =>
    match heapPop openS with
    | none => some (.error .Disconnected)
    | some (visit, open1) =>
      if visit.node = goal then
        (reconstruct back (back.length + 1) goal).map (fun m => .ok m.reverse)
      else
        match relaxAll allow goal visit.node (neighborsList N visit.node) (back, cost, open1) with
        | none => none
        | some (b2, c2, o2) => searchLoop N allow goal fuel b2 c2 o2

/-- `path::<N, _>(start, goal, allow)` from `src/grid/path.rs`, with explicit
iteration fuel (the Rust loop is unbounded; every claim below is about runs
that terminate within the supplied fuel). -/
def path (N : Topology) (start goal : V2i) (allow : V2i → Bool) (fuel : Nat) :
    Option (Except Path.Error (List V2i)) :=
  searchLoop N allow goal fuel [] [(start, 0)] [⟨start, 0⟩]

/-- Alias for `path`, needed because inside `Grid.path` the short name `path`
resolves to the method being defined. -/
def runPath : Topology → V2i → V2i → (V2i → Bool) → Nat →
    Option (Except Path.Error (List V2i)) := path

/-- `Grid::path`: passability is `get(pos)` succeeding with a tile whose
`Traversable::can_pass` holds; out-of-grid points are impassable. -/
def Grid.path {T : Type} (g : Grid T) (canPass : T → Bool) (N : Topology)
    (start goal : V2i) (fuel : Nat) : Option (Except Path.Error (List V2i)) :=
  runPath N start goal
    (fun pos =>
      match g.get pos with
      | .ok tile => canPass tile
      | .error _ => false)
    fuel

/-- Instrumented variant of `searchLoop` that records every point the
passability predicate is invoked on: the `for neigh in neighbors` loop calls
`allow(neigh)` on every generated neighbor of every expanded node, before any
other test.  Control flow is otherwise identical to `searchLoop`. -/
def searchLoopCalls (N : Topology) (allow : V2i → Bool) (goal : V2i) :
    Nat → List (V2i × V2i) → List (V2i × Nat) → List State → List V2i →
    Option (List V2i)
  | 0, _, _, _, _ => none
  | fuel + 1, back, cost, openS, acc =>
    match heapPop openS with
    | none => some acc
    | some (visit, open1) =>
      if visit.node = goal then some acc
      else
        match relaxAll allow goal visit.node (neighborsList N visit.node) (back, cost, open1) with
        | none => none
        | some (b2, c2, o2) =>
          searchLoopCalls N allow goal fuel b2 c2 o2 (acc ++ neighborsList N visit.node)

/-- The list of points `allow` is invoked on during a terminating run of
`path`. -/
def pathCalls (N : Topology) (start goal : V2i) (allow : V2i → Bool) (fuel : Nat) :
    Option (List V2i) :=
  searchLoopCalls N allow goal fuel [] [(start, 0)] [⟨start, 0⟩] []

instance {e a : Type _} [DecidableEq e] [DecidableEq a] : DecidableEq (Except e a)
  | .ok x, .ok y => if h : x = y then .isTrue (by rw [h]) else .isFalse (by simp [h])
  | .ok _, .error _ => .isFalse (by simp)
  | .error _, .ok _ => .isFalse (by simp)
  | .error x, .error y => if h : x = y then .isTrue (by rw [h]) else .isFalse (by simp [h])

/-- The element list of the test grid of `src/grid/path.rs` (`testing_grid`):
a 5x5 grid where value `0` is passable and value `1` impassable, the passable
cells forming a ring around the impassable center column. -/
def ringList : List Int := [1, 1, 1, 1, 1, 1, 0, 0, 0, 1, 1, 0, 1, 0, 1, 1, 0, 1, 0, 1, 1, 1, 1, 1, 1]

/-- The test grid itself (origin `(0,0)`, dim `(5,5)`). -/
def testing_grid : Grid Int := ⟨ringList, ⟨0, 0⟩, ⟨5, 5⟩⟩

/-- `impl Traversable for isize { fn can_pass(&self) -> bool { *self == 0 } }`. -/
def canPassTile (t : Int) : Bool := t == 0

/-- The test grid with the single connecting ring cell `(2,1)` (linear index
`1*5+2 = 7`) additionally made impassable, as in the `fails_when_disconnected`
test. -/
def blocked_grid : Grid Int := ⟨ringList.set 7 1, ⟨0, 0⟩, ⟨5, 5⟩⟩

/-- C1: on the 5x5 ring grid (value 0 passable, 1 impassable), the search from
`(1,3)` to `(3,3)` with 8-connected movement (`Linf`) returns a successful
path of length 5 from `(1,3)` to `(3,3)`; with 4-connected movement (`L1`) it
returns a successful path of length 7 with the same endpoints. -/
theorem ring_scenario_paths :
    (Grid.from_vec ringList ⟨0, 0⟩ ⟨5, 5⟩ = .ok testing_grid) ∧
    (∃ l, testing_grid.path canPassTile .Linf ⟨1, 3⟩ ⟨3, 3⟩ 100 = some (.ok l) ∧
      l.length = 5 ∧ l.head? = some ⟨1, 3⟩ ∧ l.getLast? = some ⟨3, 3⟩) ∧
    (∃ l, testing_grid.path canPassTile .L1 ⟨1, 3⟩ ⟨3, 3⟩ 100 = some (.ok l) ∧
      l.length = 7 ∧ l.head? = some ⟨1, 3⟩ ∧ l.getLast? = some ⟨3, 3⟩) :=
  ⟨by decide,
   ⟨[⟨1, 3⟩, ⟨1, 2⟩, ⟨2, 1⟩, ⟨3, 2⟩, ⟨3, 3⟩], by decide, by decide, by decide, by decide⟩,
   ⟨[⟨1, 3⟩, ⟨1, 2⟩, ⟨1, 1⟩, ⟨2, 1⟩, ⟨3, 1⟩, ⟨3, 2⟩, ⟨3, 3⟩],
    by decide, by decide, by decide, by decide⟩⟩

/-- C8 (code bug): for the empty rectangle `dim = (0,1)` the iterator of
`R2i::origin_dim((0,0), (0,1))` yields the point `(0,0)` — which is not a
lattice point of `[origin, origin+dim)` — so `Grid::from_generator` invokes
the generator once instead of zero times and then fails with `BadDim`,
although `Grid::from_vec` accepts the same (empty) rectangle. -/
theorem from_generator_zero_width_bug :
    (Grid.from_generator (fun _ => (0 : Int)) ⟨0, 0⟩ ⟨0, 1⟩ =
      .error (.BadDim ⟨0, 1⟩ 1)) ∧
    ((R2i.origin_dim ⟨0, 0⟩ ⟨0, 1⟩).iterList = [⟨0, 0⟩]) ∧
    (Grid.from_vec ([] : List Int) ⟨0, 0⟩ ⟨0, 1⟩ = .ok ⟨[], ⟨0, 0⟩, ⟨0, 1⟩⟩) := by
  refine ⟨by decide, by decide, by decide⟩

/-- C7: `Grid` construction from an element sequence fails with `NegativeDim`
whenever either component of `dim` is negative, fails with `BadDim` whenever
`dim` is componentwise non-negative but the element count differs from
`dim.x * dim.y`, and succeeds otherwise. -/
theorem grid_construct_errors {T : Type} (array : List T) (origin dim : V2i) :
    (¬ (0 ≤ dim.x ∧ 0 ≤ dim.y) →
      Grid.from_boxed_slice array origin dim = .error (.NegativeDim dim)) ∧
    ((0 ≤ dim.x ∧ 0 ≤ dim.y) → (array.length : Int) ≠ dim.x * dim.y →
      Grid.from_boxed_slice array origin dim = .error (.BadDim dim array.length)) ∧
    ((0 ≤ dim.x ∧ 0 ≤ dim.y) → (array.length : Int) = dim.x * dim.y →
      Grid.from_boxed_slice array origin dim = .ok ⟨array, origin, dim⟩) := by
  have hq : (dim.is_q1 = true) ↔ (0 ≤ dim.x ∧ 0 ≤ dim.y) := by
    simp [V2i.is_q1]
  refine ⟨?_, ?_, ?_⟩
  · intro h
    unfold Grid.from_boxed_slice
    rw [if_pos]
    simpa [hq] using h
  · intro h hne
    have hcast : ((dim.x.toNat * dim.y.toNat : Nat) : Int) = dim.x * dim.y := by
      push_cast [Int.toNat_of_nonneg h.1, Int.toNat_of_nonneg h.2]
      ring
    unfold Grid.from_boxed_slice
    rw [if_neg (by simpa [hq] using h), if_pos]
    intro heq
    apply hne
    omega
  · intro h heq
    have hcast : ((dim.x.toNat * dim.y.toNat : Nat) : Int) = dim.x * dim.y := by
      push_cast [Int.toNat_of_nonneg h.1, Int.toNat_of_nonneg h.2]
      ring
    unfold Grid.from_boxed_slice
    rw [if_neg (by simpa [hq] using h), if_neg]
    intro hne
    apply hne
    have : ((dim.x.toNat * dim.y.toNat : Nat) : Int) = (array.length : Int) := by
      rw [hcast, heq]
    exact_mod_cast this

/-- Witness for C7 at concrete inputs: a negative dimension, a length
mismatch, and a successful construction. -/
theorem grid_construct_errors_witness :
    (Grid.from_boxed_slice ([0] : List Int) ⟨0, 0⟩ ⟨-1, 1⟩ =
      .error (.NegativeDim ⟨-1, 1⟩)) ∧
    (Grid.from_boxed_slice ([0] : List Int) ⟨0, 0⟩ ⟨2, 1⟩ =
      .error (.BadDim ⟨2, 1⟩ 1)) ∧
    (Grid.from_boxed_slice ([0, 1] : List Int) ⟨0, 0⟩ ⟨2, 1⟩ =
      .ok ⟨[0, 1], ⟨0, 0⟩, ⟨2, 1⟩⟩) :=
  ⟨(grid_construct_errors [0] ⟨0, 0⟩ ⟨-1, 1⟩).1 (by decide),
   (grid_construct_errors [0] ⟨0, 0⟩ ⟨2, 1⟩).2.1 (by decide) (by decide),
   (grid_construct_errors [0, 1] ⟨0, 0⟩ ⟨2, 1⟩).2.2 (by decide) (by decide)⟩

/-- C3: for a strictly positive chunk size, chunk coordinate and in-chunk
offset recombine to the original point, and the offset lies in
`[0, grid_size)` componentwise, for every lattice point including negative
ones. -/
theorem region_chunk_addressing {T : Type} (r : Region T) (p : V2i)
    (hs : r.grid_size.is_strict_q1 = true) :
    r.get_grid_index p * r.grid_size + r.get_grid_offset p = p ∧
    0 ≤ (r.get_grid_offset p).x ∧ (r.get_grid_offset p).x < r.grid_size.x ∧
    0 ≤ (r.get_grid_offset p).y ∧ (r.get_grid_offset p).y < r.grid_size.y := by
  have hsx : 0 < r.grid_size.x := by
    simp [V2i.is_strict_q1] at hs
    exact hs.1
  have hsy : 0 < r.grid_size.y := by
    simp [V2i.is_strict_q1] at hs
    exact hs.2
  refine ⟨?_, ?_, ?_, ?_, ?_⟩
  · apply V2i.ext
    · have h1 : r.grid_size.x * p.x.ediv r.grid_size.x + p.x.emod r.grid_size.x = p.x :=
        Int.ediv_add_emod p.x r.grid_size.x
      simp only [Region.get_grid_index, Region.get_grid_offset, V2i.div_euclid,
        V2i.rem_euclid, V2i.mul_x, V2i.add_x]
      linarith [h1]
    · have h1 : r.grid_size.y * p.y.ediv r.grid_size.y + p.y.emod r.grid_size.y = p.y :=
        Int.ediv_add_emod p.y r.grid_size.y
      simp only [Region.get_grid_index, Region.get_grid_offset, V2i.div_euclid,
        V2i.rem_euclid, V2i.mul_y, V2i.add_y]
      linarith [h1]
  · exact Int.emod_nonneg p.x (by omega)
  · exact Int.emod_lt_of_pos p.x hsx
  · exact Int.emod_nonneg p.y (by omega)
  · exact Int.emod_lt_of_pos p.y hsy

/-- Witness for C3 at a concrete region (`grid_size = (3,2)`) and a negative
point. -/
theorem region_chunk_addressing_witness :
    ((⟨⟨3, 2⟩, [], none⟩ : Region Int).get_grid_index ⟨-4, -5⟩ * ⟨3, 2⟩ +
        (⟨⟨3, 2⟩, [], none⟩ : Region Int).get_grid_offset ⟨-4, -5⟩ = ⟨-4, -5⟩) ∧
    0 ≤ ((⟨⟨3, 2⟩, [], none⟩ : Region Int).get_grid_offset ⟨-4, -5⟩).x ∧
    ((⟨⟨3, 2⟩, [], none⟩ : Region Int).get_grid_offset ⟨-4, -5⟩).x < 3 ∧
    0 ≤ ((⟨⟨3, 2⟩, [], none⟩ : Region Int).get_grid_offset ⟨-4, -5⟩).y ∧
    ((⟨⟨3, 2⟩, [], none⟩ : Region Int).get_grid_offset ⟨-4, -5⟩).y < 2 :=
  region_chunk_addressing (⟨⟨3, 2⟩, [], none⟩ : Region Int) ⟨-4, -5⟩ (by decide)

/-- Mirror of the search loop as a proposition: holds exactly when the run
pops nodes (never equal to the goal) until the open set is exhausted within
the given fuel. -/
def searchExhausts (N : Topology) (allow : V2i → Bool) (goal : V2i) :
    Nat → List (V2i × V2i) → List (V2i × Nat) → List State → Prop
  | 0, _, _, _ => False
  | fuel + 1, back, cost, openS =>
    match heapPop openS with
    | none => True
    | some (visit, open1) =>
      visit.node ≠ goal ∧
      match relaxAll allow goal visit.node (neighborsList N visit.node) (back, cost, open1) with
      | none => False
      | some st2 => searchExhausts N allow goal fuel st2.1 st2.2.1 st2.2.2

/-- C6: the search returns `Disconnected` exactly when the open set is
exhausted without the goal being popped; concretely, on the ring grid with the
single connecting cell `(2,1)` additionally blocked, the 8-connected query
from `(1,3)` to `(3,3)` returns `Disconnected`. -/
theorem disconnected_iff_open_exhausted :
    (∀ (N : Topology) (allow : V2i → Bool) (goal : V2i) (fuel : Nat)
        (back : List (V2i × V2i)) (cost : List (V2i × Nat)) (openS : List State),
      searchLoop N allow goal fuel back cost openS = some (.error .Disconnected) ↔
        searchExhausts N allow goal fuel back cost openS) ∧
    blocked_grid.path canPassTile .Linf ⟨1, 3⟩ ⟨3, 3⟩ 200 =
      some (.error .Disconnected) := by
  constructor
  · intro N allow goal fuel
    induction fuel with
    | zero =>
      intro back cost openS
      simp [searchLoop, searchExhausts]
    | succ n ih =>
      intro back cost openS
      simp only [searchLoop, searchExhausts]
      cases hpop : heapPop openS with
      | none => simp
      | some pr =>
        obtain ⟨visit, open1⟩ := pr
        dsimp only
        by_cases hg : visit.node = goal
        · simp only [hg, if_pos rfl]
          cases hrec : reconstruct back (back.length + 1) goal with
          | none => simp
          | some m => simp
        · rw [if_neg hg]
          cases hrel : relaxAll allow goal visit.node
              (neighborsList N visit.node) (back, cost, open1) with
          | none => simp
          | some st2 => simp [ih, hg]
  · decide

/-- C2: for every grid with componentwise non-negative `dim` whose store
length is `dim.x * dim.y` (the invariant every constructor establishes),
`v2i_of` inverts `index_of` on every valid point and `index_of` inverts
`v2i_of` on every valid linear index — the mapping is a bijection over the
grid's rectangle. -/
theorem grid_index_point_bijection {T : Type} (g : Grid T)
    (hq : g.dim.is_q1 = true)
    (hlen : g.array.length = g.dim.x.toNat * g.dim.y.toNat) :
    (∀ p i, g.index_of p = .ok i → g.v2i_of i = .ok p) ∧
    (∀ i p, g.v2i_of i = .ok p → g.index_of p = .ok i) := by
  have hqx : 0 ≤ g.dim.x := by
    simp [V2i.is_q1] at hq
    exact hq.1
  have hqy : 0 ≤ g.dim.y := by
    simp [V2i.is_q1] at hq
    exact hq.2
  constructor
  · intro p i h
    simp only [Grid.index_of, V2i.sub_x, V2i.sub_y] at h
    split at h
    · exact absurd h (by simp)
    · rename_i hcond
      push_neg at hcond
      obtain ⟨h1, h2, h3, h4⟩ := hcond
      rw [Except.ok.injEq] at h
      subst h
      have hdx : (p.x - g.origin.x).toNat < g.dim.x.toNat := by omega
      have hdy : (p.y - g.origin.y).toNat < g.dim.y.toNat := by omega
      have hXpos : 0 < g.dim.x.toNat := by omega
      have hidx : (p.y - g.origin.y).toNat * g.dim.x.toNat + (p.x - g.origin.x).toNat <
          g.dim.x.toNat * g.dim.y.toNat := by
        calc (p.y - g.origin.y).toNat * g.dim.x.toNat + (p.x - g.origin.x).toNat
            < ((p.y - g.origin.y).toNat + 1) * g.dim.x.toNat := by
              rw [Nat.succ_mul]
              omega
          _ ≤ g.dim.y.toNat * g.dim.x.toNat := Nat.mul_le_mul_right _ (by omega)
          _ = g.dim.x.toNat * g.dim.y.toNat := Nat.mul_comm _ _
      have hmod : ((p.y - g.origin.y).toNat * g.dim.x.toNat + (p.x - g.origin.x).toNat) %
          g.dim.x.toNat = (p.x - g.origin.x).toNat := by
        rw [Nat.mul_comm ((p.y - g.origin.y).toNat) g.dim.x.toNat, Nat.mul_add_mod,
          Nat.mod_eq_of_lt hdx]
      have hdiv : ((p.y - g.origin.y).toNat * g.dim.x.toNat + (p.x - g.origin.x).toNat) /
          g.dim.x.toNat = (p.y - g.origin.y).toNat := by
        rw [Nat.mul_comm ((p.y - g.origin.y).toNat) g.dim.x.toNat,
          Nat.mul_add_div hXpos, Nat.div_eq_of_lt hdx, Nat.add_zero]
      simp only [Grid.v2i_of]
      rw [if_neg (by omega)]
      rw [Except.ok.injEq, hmod, hdiv]
      apply V2i.ext
      · simp only [V2i.add_x]
        omega
      · simp only [V2i.add_y]
        omega
  · intro i p h
    simp only [Grid.v2i_of] at h
    split at h
    · exact absurd h (by simp)
    · rename_i hilen
      push_neg at hilen
      rw [Except.ok.injEq] at h
      have hXpos : 0 < g.dim.x.toNat := by
        rcases Nat.eq_zero_or_pos g.dim.x.toNat with h0 | hp
        · rw [h0, Nat.zero_mul] at hlen
          omega
        · exact hp
      have hmodlt : i % g.dim.x.toNat < g.dim.x.toNat := Nat.mod_lt _ hXpos
      have hdivlt : i / g.dim.x.toNat < g.dim.y.toNat := by
        rw [Nat.div_lt_iff_lt_mul hXpos]
        calc i < g.array.length := hilen
          _ = g.dim.x.toNat * g.dim.y.toNat := hlen
          _ = g.dim.y.toNat * g.dim.x.toNat := Nat.mul_comm _ _
      subst h
      have hc1 : (0 : Int) ≤ ((i % g.dim.x.toNat : Nat) : Int) := Int.natCast_nonneg _
      have hc2 : (0 : Int) ≤ ((i / g.dim.x.toNat : Nat) : Int) := Int.natCast_nonneg _
      simp only [Grid.index_of, V2i.sub_x, V2i.sub_y, V2i.add_x, V2i.add_y]
      rw [if_neg (by push_neg; refine ⟨by omega, by omega, by omega, by omega⟩)]
      rw [Except.ok.injEq]
      have ha : ((i % g.dim.x.toNat : Nat) : Int) + g.origin.x - g.origin.x =
          ((i % g.dim.x.toNat : Nat) : Int) := by omega
      have hb : ((i / g.dim.x.toNat : Nat) : Int) + g.origin.y - g.origin.y =
          ((i / g.dim.x.toNat : Nat) : Int) := by omega
      rw [ha, hb, Int.toNat_natCast, Int.toNat_natCast]
      rw [Nat.mul_comm]
      exact Nat.div_add_mod i g.dim.x.toNat

/-- Witness for C2 at a concrete 2x3 grid with a non-zero origin. -/
theorem grid_index_point_bijection_witness :
    ((⟨[10, 11, 12, 13, 14, 15], ⟨-1, 4⟩, ⟨2, 3⟩⟩ : Grid Int).v2i_of 3 =
      .ok ⟨0, 5⟩) ∧
    ((⟨[10, 11, 12, 13, 14, 15], ⟨-1, 4⟩, ⟨2, 3⟩⟩ : Grid Int).index_of ⟨0, 5⟩ =
      .ok 3) :=
  ⟨(grid_index_point_bijection (⟨[10, 11, 12, 13, 14, 15], ⟨-1, 4⟩, ⟨2, 3⟩⟩ : Grid Int)
      (by decide) (by decide)).1 ⟨0, 5⟩ 3 (by decide),
   (grid_index_point_bijection (⟨[10, 11, 12, 13, 14, 15], ⟨-1, 4⟩, ⟨2, 3⟩⟩ : Grid Int)
      (by decide) (by decide)).2 3 ⟨0, 5⟩ (by decide)⟩

theorem index_lt_mul {a b X Y : Nat} (ha : a < X) (hb : b < Y) :
    b * X + a < X * Y := by
  calc b * X + a < (b + 1) * X := by
        rw [Nat.succ_mul]
        omega
    _ ≤ Y * X := Nat.mul_le_mul_right _ (by omega)
    _ = X * Y := Nat.mul_comm _ _

/-- A grid covering the chunk rectangle of `p` (origin `chunk_coord*gs`, dim
`gs`, full store) indexes `p` successfully, within the store. -/
theorem chunk_grid_access {T : Type} (g : Grid T) (gs p : V2i)
    (hgx : 0 < gs.x) (hgy : 0 < gs.y)
    (horig : g.origin = p.div_euclid gs * gs) (hdim : g.dim = gs)
    (hlen : g.array.length = gs.x.toNat * gs.y.toNat) :
    ∃ i, g.index_of p = .ok i ∧ i < g.array.length := by
  have hmx : 0 ≤ p.x.emod gs.x := Int.emod_nonneg p.x (show gs.x ≠ 0 by omega)
  have hmx2 : p.x.emod gs.x < gs.x := Int.emod_lt_of_pos p.x hgx
  have hmy : 0 ≤ p.y.emod gs.y := Int.emod_nonneg p.y (show gs.y ≠ 0 by omega)
  have hmy2 : p.y.emod gs.y < gs.y := Int.emod_lt_of_pos p.y hgy
  have hdx : p.x - (p.div_euclid gs * gs).x = p.x.emod gs.x := by
    simp only [V2i.div_euclid, V2i.mul_x]
    have h1 : gs.x * p.x.ediv gs.x + p.x.emod gs.x = p.x := Int.ediv_add_emod p.x gs.x
    linarith
  have hdy : p.y - (p.div_euclid gs * gs).y = p.y.emod gs.y := by
    simp only [V2i.div_euclid, V2i.mul_y]
    have h1 : gs.y * p.y.ediv gs.y + p.y.emod gs.y = p.y := Int.ediv_add_emod p.y gs.y
    linarith
  have hcond : ¬((p - g.origin).x < 0 ∨ (p - g.origin).y < 0 ∨
      (p - g.origin).x ≥ g.dim.x ∨ (p - g.origin).y ≥ g.dim.y) := by
    rw [horig, hdim]
    simp only [V2i.sub_x, V2i.sub_y]
    rw [hdx, hdy]
    push_neg
    exact ⟨by omega, by omega, by omega, by omega⟩
  have hix : g.index_of p =
      .ok ((p - g.origin).y.toNat * g.dim.x.toNat + (p - g.origin).x.toNat) := by
    simp only [Grid.index_of]
    rw [if_neg hcond]
  refine ⟨_, hix, ?_⟩
  rw [hlen, horig, hdim]
  simp only [V2i.sub_x, V2i.sub_y]
  rw [hdx, hdy]
  exact index_lt_mul (by omega) (by omega)

/-- On such a grid, `get` returns an element and `set` succeeds. -/
theorem chunk_grid_get_set {T : Type} (g : Grid T) (gs p : V2i) (t : T)
    (hgx : 0 < gs.x) (hgy : 0 < gs.y)
    (horig : g.origin = p.div_euclid gs * gs) (hdim : g.dim = gs)
    (hlen : g.array.length = gs.x.toNat * gs.y.toNat) :
    (∃ u, g.get p = .ok u) ∧ (∃ g2, g.set p t = .ok g2) := by
  obtain ⟨i, hix, hlt⟩ := chunk_grid_access g gs p hgx hgy horig hdim hlen
  have hget : g.array[i]? = some (g.array.get ⟨i, hlt⟩) := by
    rw [List.getElem?_eq_getElem hlt]
    rfl
  constructor
  · exact ⟨g.array.get ⟨i, hlt⟩, by simp [Grid.get, hix, hget]⟩
  · exact ⟨{ g with array := g.array.set i t }, by simp [Grid.set, hix, hget]⟩

/-- C4 (amended): for a Region with strictly positive chunk size all of whose
materialized chunks have the shape requested at their creation
(`Region.chunksWf` — automatic for default-filled chunks, trusted for a
configured generator), `get(p)` returns `None` exactly when the chunk owning
`p` has not been created, and an element (never the inner lookup failure)
when it has. -/
theorem region_get_chunk_presence {T : Type} [Inhabited T] (r : Region T) (p : V2i)
    (hs : r.grid_size.is_strict_q1 = true) (hwf : r.chunksWf) :
    (r.get p = none ↔ r.get_grid p = none) ∧
    (∀ g, r.get_grid p = some g → ∃ t, r.get p = some (.ok t)) := by
  have hgx : 0 < r.grid_size.x := by
    simp [V2i.is_strict_q1] at hs
    exact hs.1
  have hgy : 0 < r.grid_size.y := by
    simp [V2i.is_strict_q1] at hs
    exact hs.2
  constructor
  · unfold Region.get
    cases r.get_grid p <;> simp
  · intro g hg
    obtain ⟨horig, hdim, hlen⟩ := hwf _ _ hg
    obtain ⟨⟨u, hu⟩, -⟩ :=
      chunk_grid_get_set g r.grid_size p default hgx hgy horig hdim hlen
    refine ⟨u, ?_⟩
    unfold Region.get
    rw [hg]
    simp [hu]

/-- A generator that ignores the requested chunk rectangle and returns an
empty grid, violating the shape trusted by `Region::get`. -/
def badGen : V2i → V2i → V2i → V2i → Grid Int := fun _ _ _ _ => ⟨[], ⟨0, 0⟩, ⟨0, 0⟩⟩

/-- A region (built through the public API: `build` then one `get_grid_mut`)
holding a chunk that does not contain the points it owns. -/
def badRegion : Region Int :=
  match (Region.build ⟨2, 2⟩ (some badGen) : Except Region.Error (Region Int)) with
  | .ok r0 =>
    match r0.get_grid_mut ⟨0, 0⟩ with
    | some (_, r1) => r1
    | none => r0
  | .error _ => ⟨⟨2, 2⟩, [], none⟩

/-- Counterexample to C4 as stated: in `badRegion` the chunk owning `(0,0)`
has been created, yet `get((0,0))` hits the supposedly unreachable
out-of-bounds branch (a panic in the Rust code) instead of returning an
element. -/
theorem region_get_inner_failure_counterexample :
    (badRegion.get_grid ⟨0, 0⟩).isSome = true ∧
    badRegion.get ⟨0, 0⟩ = some (.error (.OutOfBounds ⟨0, 0⟩)) := by
  refine ⟨by decide, by decide⟩

/-- Witness for the amended C4 at a concrete region: one default-created
chunk; a point of that chunk yields an element, a point of an untouched chunk
yields `none`. -/
theorem region_get_chunk_presence_witness :
    ((⟨⟨2, 2⟩, [(⟨0, 0⟩, ⟨[1, 2, 3, 4], ⟨0, 0⟩, ⟨2, 2⟩⟩)], none⟩ : Region Int).get ⟨9, 9⟩ =
        none ↔
      (⟨⟨2, 2⟩, [(⟨0, 0⟩, ⟨[1, 2, 3, 4], ⟨0, 0⟩, ⟨2, 2⟩⟩)], none⟩ : Region Int).get_grid ⟨9, 9⟩ =
        none) ∧
    (∃ t, (⟨⟨2, 2⟩, [(⟨0, 0⟩, ⟨[1, 2, 3, 4], ⟨0, 0⟩, ⟨2, 2⟩⟩)], none⟩ : Region Int).get ⟨1, 1⟩ =
        some (.ok t)) := by
  have hwf : (⟨⟨2, 2⟩, [(⟨0, 0⟩, ⟨[1, 2, 3, 4], ⟨0, 0⟩, ⟨2, 2⟩⟩)], none⟩ : Region Int).chunksWf := by
    intro k g hk
    unfold alLookup at hk
    split at hk
    · rename_i hke
      subst hke
      rw [Option.some.injEq] at hk
      subst hk
      refine ⟨by decide, by decide, by decide⟩
    · exact absurd hk (by unfold alLookup; simp)
  exact ⟨(region_get_chunk_presence
            (⟨⟨2, 2⟩, [(⟨0, 0⟩, ⟨[1, 2, 3, 4], ⟨0, 0⟩, ⟨2, 2⟩⟩)], none⟩ : Region Int) ⟨9, 9⟩
            (by decide) hwf).1,
         (region_get_chunk_presence
            (⟨⟨2, 2⟩, [(⟨0, 0⟩, ⟨[1, 2, 3, 4], ⟨0, 0⟩, ⟨2, 2⟩⟩)], none⟩ : Region Int) ⟨1, 1⟩
            (by decide) hwf).2 ⟨[1, 2, 3, 4], ⟨0, 0⟩, ⟨2, 2⟩⟩ (by decide)⟩

theorem length_alUpdate {β : Type _} (l : List (V2i × β)) (k : V2i) (b : β) :
    (alUpdate l k b).length = l.length := List.length_map _ _

theorem alLookup_alUpdate_isSome {β : Type _} (l : List (V2i × β)) (k k2 : V2i) (b : β) :
    (alLookup (alUpdate l k b) k2).isSome = (alLookup l k2).isSome := by
  induction l with
  | nil => rfl
  | cons hd rest ih =>
    obtain ⟨kk, vv⟩ := hd
    by_cases hk : kk = k
    · subst hk
      show (alLookup ((if kk = kk then (kk, b) else (kk, vv)) :: alUpdate rest kk b) k2).isSome =
        (if k2 = kk then some vv else alLookup rest k2).isSome
      rw [if_pos rfl]
      show (if k2 = kk then some b else alLookup (alUpdate rest kk b) k2).isSome =
        (if k2 = kk then some vv else alLookup rest k2).isSome
      by_cases h2 : k2 = kk
      · rw [if_pos h2, if_pos h2]
        rfl
      · rw [if_neg h2, if_neg h2]
        exact ih
    · show (alLookup ((if kk = k then (k, b) else (kk, vv)) :: alUpdate rest k b) k2).isSome =
        (if k2 = kk then some vv else alLookup rest k2).isSome
      rw [if_neg hk]
      show (if k2 = kk then some vv else alLookup (alUpdate rest k b) k2).isSome =
        (if k2 = kk then some vv else alLookup rest k2).isSome
      by_cases h2 : k2 = kk
      · rw [if_pos h2, if_pos h2]
      · rw [if_neg h2, if_neg h2]
        exact ih

theorem from_default_ok {T : Type} [Inhabited T] (origin dim : V2i)
    (hq : dim.is_q1 = true) :
    Grid.from_default (T := T) origin dim =
      .ok ⟨List.replicate (dim.x.toNat * dim.y.toNat) default, origin, dim⟩ := by
  unfold Grid.from_default Grid.from_vec Grid.from_boxed_slice
  rw [if_neg (not_not_intro hq), if_neg (not_not_intro hq), if_neg (by simp)]

/-- Decomposition of a completed `Region.write`: the written chunk was either
already present, or was created (by generator or default fill) and registered
before the element write; in both cases the chunk map is updated in place at
the owning chunk coordinate. -/
theorem region_write_decomp {T : Type} [Inhabited T] (r : Region T) (p : V2i) (t : T)
    (r2 : Region T) (h : r.write p t = some r2) :
    ∃ g g2, g.set p t = .ok g2 ∧
      ((alLookup r.grids (r.get_grid_index p) = some g ∧
          r2 = { r with grids := alUpdate r.grids (r.get_grid_index p) g2 }) ∨
       (alLookup r.grids (r.get_grid_index p) = none ∧
          r2 = { r with
                 grids := alUpdate ((r.get_grid_index p, g) :: r.grids)
                   (r.get_grid_index p) g2 })) := by
  unfold Region.write Region.get_grid_mut at h
  cases hl : alLookup r.grids (r.get_grid_index p) with
  | some g =>
    simp only [hl] at h
    cases hset : g.set p t with
    | error e => simp [hset] at h
    | ok g2 =>
      simp only [hset] at h
      rw [Option.some.injEq] at h
      exact ⟨g, g2, hset, .inl ⟨rfl, h.symm⟩⟩
  | none =>
    cases hgen : r.grid_gen with
    | some gen =>
      simp only [hl, hgen] at h
      cases hset : (gen p (r.get_grid_index p) (r.get_grid_index p * r.grid_size)
          r.grid_size).set p t with
      | error e => simp [hset] at h
      | ok g2 =>
        simp only [hset] at h
        rw [Option.some.injEq] at h
        exact ⟨_, g2, hset, .inr ⟨rfl, h.symm⟩⟩
    | none =>
      cases hdf : (Grid.from_default (r.get_grid_index p * r.grid_size) r.grid_size :
          Except Grid.Error (Grid T)) with
      | error e => simp [hl, hgen, hdf] at h
      | ok g =>
        simp only [hl, hgen, hdf] at h
        cases hset : g.set p t with
        | error e => simp [hset] at h
        | ok g2 =>
          simp only [hset] at h
          rw [Option.some.injEq] at h
          exact ⟨g, g2, hset, .inr ⟨rfl, h.symm⟩⟩

/-- C5: chunk creation happens exactly on the first write into a chunk: a
completed write to a point whose chunk is absent raises `grids()` by exactly
one (and such a write always completes when no generator is configured); a
completed write to a point whose chunk is present leaves `grids()` unchanged;
after a write, the owning chunk of every point of the same chunk is present,
so subsequent writes there change nothing.  `get_grid_mut` is the sole
chunk-creating operation: `get_mut`, `write` and `get_or_create` all route
through it, and the read accessors `get`/`get_grid` are pure functions of the
region in this embedding, returning no updated region, so they cannot change
`grids()`. -/
theorem region_write_allocation {T : Type} [Inhabited T] (r : Region T) (p q : V2i) (t : T)
    (hs : r.grid_size.is_strict_q1 = true) :
    (r.grid_gen = none → alLookup r.grids (r.get_grid_index p) = none →
      ∃ r2, r.write p t = some r2) ∧
    (∀ r2, r.write p t = some r2 → r2.grid_size = r.grid_size ∧ r2.grid_gen = r.grid_gen) ∧
    (∀ r2, alLookup r.grids (r.get_grid_index p) = none → r.write p t = some r2 →
      r2.gridsCount = r.gridsCount + 1) ∧
    (∀ r2, (alLookup r.grids (r.get_grid_index p)).isSome = true → r.write p t = some r2 →
      r2.gridsCount = r.gridsCount) ∧
    (∀ r2, r.write p t = some r2 → r.get_grid_index q = r.get_grid_index p →
      (alLookup r2.grids (r.get_grid_index q)).isSome = true) := by
  have hgx : 0 < r.grid_size.x := by
    simp [V2i.is_strict_q1] at hs
    exact hs.1
  have hgy : 0 < r.grid_size.y := by
    simp [V2i.is_strict_q1] at hs
    exact hs.2
  have hq1 : r.grid_size.is_q1 = true := by
    simp only [V2i.is_q1, Bool.and_eq_true, decide_eq_true_eq]
    omega
  refine ⟨?_, ?_, ?_, ?_, ?_⟩
  · intro hgen hl
    have hdef := from_default_ok (T := T) (r.get_grid_index p * r.grid_size) r.grid_size hq1
    obtain ⟨-, g2, hset⟩ := chunk_grid_get_set
      (⟨List.replicate (r.grid_size.x.toNat * r.grid_size.y.toNat) default,
        r.get_grid_index p * r.grid_size, r.grid_size⟩ : Grid T)
      r.grid_size p t hgx hgy rfl rfl (by simp)
    rw [← Option.isSome_iff_exists]
    unfold Region.write Region.get_grid_mut
    simp only [hl, hgen, hdef, hset]
    rfl
  · intro r2 hw
    obtain ⟨g, g2, hset, hcase⟩ := region_write_decomp r p t r2 hw
    rcases hcase with ⟨-, h2⟩ | ⟨-, h2⟩ <;> subst h2 <;> exact ⟨rfl, rfl⟩
  · intro r2 hl hw
    obtain ⟨g, g2, hset, hcase⟩ := region_write_decomp r p t r2 hw
    rcases hcase with ⟨hsome, h2⟩ | ⟨-, h2⟩
    · rw [hl] at hsome
      exact absurd hsome (by simp)
    · subst h2
      simp only [Region.gridsCount, length_alUpdate, List.length_cons]
  · intro r2 hsome hw
    obtain ⟨g, g2, hset, hcase⟩ := region_write_decomp r p t r2 hw
    rcases hcase with ⟨-, h2⟩ | ⟨hnone, h2⟩
    · subst h2
      simp only [Region.gridsCount, length_alUpdate]
    · rw [hnone] at hsome
      simp at hsome
  · intro r2 hw hqp
    obtain ⟨g, g2, hset, hcase⟩ := region_write_decomp r p t r2 hw
    rcases hcase with ⟨hsome, h2⟩ | ⟨hnone, h2⟩ <;> subst h2 <;>
      rw [hqp, alLookup_alUpdate_isSome]
    · rw [hsome]
      rfl
    · simp [alLookup]

/-- Witness for C5 at a concrete region: a first write into the untouched
chunk of `(3,3)` (chunk size `(2,2)`, no generator) completes and raises the
chunk count from 0 to 1. -/
theorem region_write_allocation_witness :
    ((⟨⟨2, 2⟩, [], none⟩ : Region Int).write ⟨3, 3⟩ 7).map Region.gridsCount = some 1 := by
  have h := region_write_allocation (⟨⟨2, 2⟩, [], none⟩ : Region Int) ⟨3, 3⟩ ⟨3, 3⟩ 7
    (by decide)
  obtain ⟨r2, hw⟩ := h.1 rfl rfl
  rw [hw]
  show some r2.gridsCount = some 1
  rw [h.2.2.1 r2 rfl hw]
  rfl

theorem lswap_subset (l : List State) (i j : Nat) :
    ∀ y ∈ lswap l i j, y ∈ l := by
  intro y hy
  unfold lswap at hy
  cases hi : l.get? i with
  | none =>
    rw [hi] at hy
    exact hy
  | some a =>
    cases hj : l.get? j with
    | none =>
      rw [hi, hj] at hy
      exact hy
    | some b =>
      rw [hi, hj] at hy
      rcases List.mem_or_eq_of_mem_set hy with hy2 | hy2
      · rcases List.mem_or_eq_of_mem_set hy2 with hy3 | hy3
        · exact hy3
        · subst hy3
          exact List.get?_mem hj
      · subst hy2
        exact List.get?_mem hi

theorem siftUp_subset : ∀ (fuel : Nat) (l : List State) (s p : Nat),
    ∀ y ∈ siftUp fuel l s p, y ∈ l := by
  intro fuel
  induction fuel with
  | zero => intro l s p y hy; exact hy
  | succ n ih =>
    intro l s p y hy
    unfold siftUp at hy
    dsimp only at hy
    split at hy
    · split at hy
      · exact lswap_subset _ _ _ _ (ih _ _ _ y hy)
      · exact hy
    · exact hy

theorem siftDownLoop_subset : ∀ (fuel : Nat) (l : List State) (p : Nat),
    ∀ y ∈ (siftDownLoop fuel l p).1, y ∈ l := by
  intro fuel
  induction fuel with
  | zero => intro l p y hy; exact hy
  | succ n ih =>
    intro l p y hy
    unfold siftDownLoop at hy
    dsimp only at hy
    split at hy
    · exact lswap_subset _ _ _ _ (ih _ _ y hy)
    · split at hy
      · exact lswap_subset _ _ _ _ hy
      · exact hy

theorem siftDownToBottom_subset (l : List State) (p : Nat) :
    ∀ y ∈ siftDownToBottom l p, y ∈ l := by
  intro y hy
  unfold siftDownToBottom at hy
  rcases hsd : siftDownLoop (l.length + 1) l p with ⟨l2, pos2⟩
  rw [hsd] at hy
  dsimp only at hy
  have h2 : y ∈ l2 := siftUp_subset _ _ _ _ y hy
  have h3 : y ∈ (siftDownLoop (l.length + 1) l p).1 := by
    rw [hsd]
    exact h2
  exact siftDownLoop_subset _ _ _ y h3

theorem heapPush_mem (l : List State) (x : State) :
    ∀ y ∈ heapPush l x, y ∈ l ∨ y = x := by
  intro y hy
  unfold heapPush at hy
  have h2 := siftUp_subset _ _ _ _ y hy
  rcases List.mem_append.mp h2 with h3 | h3
  · exact .inl h3
  · exact .inr (List.mem_singleton.mp h3)

theorem getLast?_mem_of (l : List State) (x : State) (h : l.getLast? = some x) :
    x ∈ l := by
  induction l with
  | nil => exact absurd h (by simp)
  | cons hd rest ih =>
    cases rest with
    | nil =>
      simp only [List.getLast?_singleton, Option.some.injEq] at h
      simp [h]
    | cons hd2 rest2 =>
      rw [List.getLast?_cons_cons] at h
      exact List.mem_cons_of_mem _ (ih h)

theorem heapPop_mem (l l2 : List State) (x : State) (h : heapPop l = some (x, l2)) :
    x ∈ l ∧ ∀ y ∈ l2, y ∈ l := by
  unfold heapPop at h
  cases hlast : l.getLast? with
  | none =>
    rw [hlast] at h
    exact absurd h (by simp)
  | some last =>
    rw [hlast] at h
    dsimp only at h
    have hlastmem := getLast?_mem_of l last hlast
    have hdropsub : ∀ y ∈ l.dropLast, y ∈ l := by
      intro y hy
      rw [List.dropLast_eq_take] at hy
      exact List.take_subset _ _ hy
    split at h
    · rw [Option.some.injEq, Prod.mk.injEq] at h
      obtain ⟨hx, hl2⟩ := h
      subst hx
      subst hl2
      exact ⟨hlastmem, fun y hy => hdropsub y hy⟩
    · rename_i hne
      rw [Option.some.injEq, Prod.mk.injEq] at h
      obtain ⟨hx, hl2⟩ := h
      have hlen : 0 < l.dropLast.length := Nat.pos_of_ne_zero hne
      constructor
      · subst hx
        have : l.dropLast.getD 0 heapDflt = l.dropLast.get ⟨0, hlen⟩ := by
          rw [List.getD_eq_getElem?_getD, List.getElem?_eq_getElem hlen]
          rfl
        rw [this]
        exact hdropsub _ (List.get_mem _ _ hlen)
      · intro y hy
        rw [← hl2] at hy
        have h3 := siftDownToBottom_subset _ _ _ hy
        rcases List.mem_or_eq_of_mem_set h3 with h4 | h4
        · exact hdropsub _ h4
        · subst h4
          exact hlastmem

theorem alLookup_cons_isSome {β : Type _} (l : List (V2i × β)) (k : V2i) (v : β) (q : V2i)
    (h : (alLookup l q).isSome = true) :
    (alLookup ((k, v) :: l) q).isSome = true := by
  show (if q = k then some v else alLookup l q).isSome = true
  by_cases hq : q = k
  · rw [if_pos hq]
    rfl
  · rw [if_neg hq]
    exact h

/-- Invariant of the search loop state: the start node has recorded cost 0;
every predecessor entry records a passable point reached in one topology step
from a costed node; every costed node other than the start has a predecessor;
every open entry is costed. -/
def SearchInv (N : Topology) (allow : V2i → Bool) (start : V2i)
    (back : List (V2i × V2i)) (cost : List (V2i × Nat)) (openS : List State) : Prop :=
  (alLookup cost start = some 0) ∧
  (∀ q r, alLookup back q = some r →
    allow q = true ∧ q ∈ neighborsList N r ∧ (alLookup cost r).isSome = true) ∧
  (∀ q, (alLookup cost q).isSome = true → q = start ∨ (alLookup back q).isSome = true) ∧
  (∀ s ∈ openS, (alLookup cost s.node).isSome = true)

theorem relaxOne_inv (N : Topology) (allow : V2i → Bool) (start goal current : V2i)
    (b : List (V2i × V2i)) (c : List (V2i × Nat)) (o : List State)
    (nb : V2i) (b2 : List (V2i × V2i)) (c2 : List (V2i × Nat)) (o2 : List State)
    (h : relaxOne allow goal current (b, c, o) nb = some (b2, c2, o2))
    (hnb : nb ∈ neighborsList N current)
    (hinv : SearchInv N allow start b c o) :
    SearchInv N allow start b2 c2 o2 ∧
    (∀ q, (alLookup c q).isSome = true → (alLookup c2 q).isSome = true) := by
  obtain ⟨hD, hA, hB, hC⟩ := hinv
  unfold relaxOne at h
  by_cases hallow : allow nb = true
  · rw [if_pos hallow] at h
    cases hcur : alLookup c current with
    | none =>
      rw [hcur] at h
      exact absurd h (by simp)
    | some g =>
      rw [hcur] at h
      dsimp only at h
      split at h
      · rename_i hupd
        have hnbs : nb ≠ start := by
          intro heq
          subst heq
          rw [hD] at hupd
          simp at hupd
        simp only [Option.some.injEq, Prod.mk.injEq] at h
        obtain ⟨hb, hc, ho⟩ := h
        subst hb
        subst hc
        subst ho
        refine ⟨⟨?_, ?_, ?_, ?_⟩, ?_⟩
        · show (if start = nb then some (g + 1) else alLookup c start) = some 0
          rw [if_neg (fun hh => hnbs hh.symm)]
          exact hD
        · intro q r hq
          by_cases hqnb : q = nb
          · subst hqnb
            have heqq : alLookup ((q, current) :: b) q = some current := by
              show (if q = q then some current else alLookup b q) = some current
              rw [if_pos rfl]
            rw [heqq, Option.some.injEq] at hq
            subst hq
            refine ⟨hallow, hnb, alLookup_cons_isSome _ _ _ _ ?_⟩
            rw [hcur]
            rfl
          · have hq2 : alLookup b q = some r := by
              have heqq : alLookup ((nb, current) :: b) q = alLookup b q := by
                show (if q = nb then some current else alLookup b q) = alLookup b q
                rw [if_neg hqnb]
              rw [heqq] at hq
              exact hq
            obtain ⟨p1, p2, p3⟩ := hA q r hq2
            exact ⟨p1, p2, alLookup_cons_isSome _ _ _ _ p3⟩
        · intro q hq
          by_cases hqnb : q = nb
          · subst hqnb
            right
            show ((if q = q then some current else alLookup b q)).isSome = true
            rw [if_pos rfl]
            rfl
          · have hq2 : (alLookup c q).isSome = true := by
              have heqq : alLookup ((nb, g + 1) :: c) q = alLookup c q := by
                show (if q = nb then some (g + 1) else alLookup c q) = alLookup c q
                rw [if_neg hqnb]
              rw [heqq] at hq
              exact hq
            rcases hB q hq2 with h1 | h1
            · exact .inl h1
            · exact .inr (alLookup_cons_isSome _ _ _ _ h1)
        · intro s hs
          rcases heapPush_mem o _ s hs with h1 | h1
          · exact alLookup_cons_isSome _ _ _ _ (hC s h1)
          · subst h1
            show ((if nb = nb then some (g + 1) else alLookup c nb)).isSome = true
            rw [if_pos rfl]
            rfl
        · intro q hq
          exact alLookup_cons_isSome _ _ _ _ hq
      · simp only [Option.some.injEq, Prod.mk.injEq] at h
        obtain ⟨hb, hc, ho⟩ := h
        subst hb
        subst hc
        subst ho
        exact ⟨⟨hD, hA, hB, hC⟩, fun q hq => hq⟩
  · rw [if_neg hallow] at h
    simp only [Option.some.injEq, Prod.mk.injEq] at h
    obtain ⟨hb, hc, ho⟩ := h
    subst hb
    subst hc
    subst ho
    exact ⟨⟨hD, hA, hB, hC⟩, fun q hq => hq⟩

theorem relaxAll_inv (N : Topology) (allow : V2i → Bool) (start goal current : V2i) :
    ∀ (ns : List V2i) (b : List (V2i × V2i)) (c : List (V2i × Nat)) (o : List State)
      (b2 : List (V2i × V2i)) (c2 : List (V2i × Nat)) (o2 : List State),
      relaxAll allow goal current ns (b, c, o) = some (b2, c2, o2) →
      (∀ nb ∈ ns, nb ∈ neighborsList N current) →
      SearchInv N allow start b c o →
      SearchInv N allow start b2 c2 o2 ∧
      (∀ q, (alLookup c q).isSome = true → (alLookup c2 q).isSome = true) := by
  intro ns
  induction ns with
  | nil =>
    intro b c o b2 c2 o2 h hns hinv
    unfold relaxAll at h
    simp only [Option.some.injEq, Prod.mk.injEq] at h
    obtain ⟨hb, hc, ho⟩ := h
    subst hb
    subst hc
    subst ho
    exact ⟨hinv, fun q hq => hq⟩
  | cons nb rest ih =>
    intro b c o b2 c2 o2 h hns hinv
    unfold relaxAll at h
    cases hr : relaxOne allow goal current (b, c, o) nb with
    | none =>
      rw [hr] at h
      exact absurd h (by simp)
    | some st2 =>
      rw [hr] at h
      obtain ⟨bb, cc, oo⟩ := st2
      obtain ⟨hinv2, hmono⟩ := relaxOne_inv N allow start goal current b c o nb bb cc oo hr
        (hns nb (List.mem_cons_self _ _)) hinv
      obtain ⟨hinv3, hmono2⟩ := ih bb cc oo b2 c2 o2 h
        (fun x hx => hns x (List.mem_cons_of_mem _ hx)) hinv2
      exact ⟨hinv3, fun q hq => hmono2 q (hmono q hq)⟩

theorem tail_reverse_eq {α : Type _} (l : List α) :
    l.reverse.tail = l.dropLast.reverse := by
  rcases List.eq_nil_or_concat l with rfl | ⟨l2, a, rfl⟩
  · rfl
  · rw [List.concat_eq_append, List.reverse_concat, List.dropLast_concat]
    rfl

theorem reconstruct_sound (N : Topology) (allow : V2i → Bool) (start : V2i)
    (back : List (V2i × V2i)) (cost : List (V2i × Nat))
    (hA : ∀ q r, alLookup back q = some r →
      allow q = true ∧ q ∈ neighborsList N r ∧ (alLookup cost r).isSome = true)
    (hB : ∀ q, (alLookup cost q).isSome = true →
      q = start ∨ (alLookup back q).isSome = true) :
    ∀ (fuel : Nat) (c : V2i) (m : List V2i),
      (alLookup cost c).isSome = true →
      reconstruct back fuel c = some m →
      m.head? = some c ∧ m.getLast? = some start ∧
      List.Chain' (fun a b => alLookup back a = some b) m ∧
      (∀ x ∈ m.dropLast, allow x = true ∧
        ∃ r, alLookup back x = some r ∧ x ∈ neighborsList N r) := by
  intro fuel
  induction fuel with
  | zero =>
    intro c m hc h
    exact absurd h (by simp [reconstruct])
  | succ n ih =>
    intro c m hc h
    unfold reconstruct at h
    cases hb : alLookup back c with
    | none =>
      rw [hb] at h
      dsimp only at h
      rw [Option.some.injEq] at h
      subst h
      have hcs : c = start := by
        rcases hB c hc with h1 | h1
        · exact h1
        · rw [hb] at h1
          exact absurd h1 (by simp)
      refine ⟨rfl, ?_, ?_, ?_⟩
      · simp [hcs]
      · simp
      · simp
    | some nxt =>
      rw [hb] at h
      dsimp only at h
      cases hm0 : reconstruct back n nxt with
      | none =>
        rw [hm0] at h
        exact absurd h (by simp)
      | some m0 =>
        rw [hm0] at h
        dsimp only [Option.map] at h
        rw [Option.some.injEq] at h
        subst h
        obtain ⟨hallow, hstep, hcost⟩ := hA c nxt hb
        obtain ⟨hh, hlast, hchain, hdrop⟩ := ih nxt m0 hcost hm0
        cases m0 with
        | nil => exact absurd hh (by simp)
        | cons m1 t =>
          have hm1 : m1 = nxt := by simpa using hh
          subst hm1
          refine ⟨rfl, ?_, ?_, ?_⟩
          · rw [List.getLast?_cons_cons]
            exact hlast
          · rw [List.chain'_cons]
            exact ⟨hb, hchain⟩
          · intro x hx
            rcases List.mem_cons.mp hx with hx1 | hx2
            · subst hx1
              exact ⟨hallow, _, hb, hstep⟩
            · exact hdrop x hx2

theorem searchLoop_sound (N : Topology) (allow : V2i → Bool) (start goal : V2i) :
    ∀ (fuel : Nat) (back : List (V2i × V2i)) (cost : List (V2i × Nat))
      (openS : List State) (l : List V2i),
      SearchInv N allow start back cost openS →
      searchLoop N allow goal fuel back cost openS = some (.ok l) →
      l ≠ [] ∧ l.head? = some start ∧ l.getLast? = some goal ∧
      List.Chain' (fun a b => b ∈ neighborsList N a) l ∧
      (∀ x ∈ l.tail, allow x = true) := by
  intro fuel
  induction fuel with
  | zero =>
    intro back cost openS l hinv h
    exact absurd h (by simp [searchLoop])
  | succ n ih =>
    intro back cost openS l hinv h
    unfold searchLoop at h
    cases hpop : heapPop openS with
    | none =>
      rw [hpop] at h
      exact absurd h (by simp)
    | some pr =>
      obtain ⟨visit, open1⟩ := pr
      rw [hpop] at h
      dsimp only at h
      obtain ⟨hvmem, hopensub⟩ := heapPop_mem openS open1 visit hpop
      obtain ⟨hD, hA, hB, hC⟩ := hinv
      by_cases hvg : visit.node = goal
      · rw [if_pos hvg] at h
        cases hrec : reconstruct back (back.length + 1) goal with
        | none =>
          rw [hrec] at h
          exact absurd h (by simp)
        | some m =>
          rw [hrec] at h
          dsimp only [Option.map] at h
          rw [Option.some.injEq, Except.ok.injEq] at h
          subst h
          have hcg : (alLookup cost goal).isSome = true := by
            have hv := hC visit hvmem
            rw [hvg] at hv
            exact hv
          obtain ⟨hh, hlast, hchain, hdrop⟩ :=
            reconstruct_sound N allow start back cost hA hB (back.length + 1) goal m hcg hrec
          refine ⟨?_, ?_, ?_, ?_, ?_⟩
          · intro hnil
            rw [List.reverse_eq_nil_iff] at hnil
            subst hnil
            exact absurd hh (by simp)
          · rw [List.head?_reverse]
            exact hlast
          · rw [List.getLast?_reverse]
            exact hh
          · rw [List.chain'_reverse]
            refine List.Chain'.imp ?_ hchain
            intro a b hab
            exact (hA a b hab).2.1
          · intro x hx
            rw [tail_reverse_eq, List.mem_reverse] at hx
            exact (hdrop x hx).1
      · rw [if_neg hvg] at h
        cases hrel : relaxAll allow goal visit.node (neighborsList N visit.node)
            (back, cost, open1) with
        | none =>
          rw [hrel] at h
          exact absurd h (by simp)
        | some st2 =>
          rw [hrel] at h
          obtain ⟨b2, c2, o2⟩ := st2
          have hinv1 : SearchInv N allow start back cost open1 :=
            ⟨hD, hA, hB, fun s hs => hC s (hopensub s hs)⟩
          obtain ⟨hinv2, -⟩ := relaxAll_inv N allow start goal visit.node
            (neighborsList N visit.node) back cost open1 b2 c2 o2 hrel
            (fun nb hnb => hnb) hinv1
          exact ih b2 c2 o2 l hinv2 h

/-- C9: every successful search result is a non-empty path that starts at the
start point, ends at the goal, moves by one topology step (a generated
neighbor) between consecutive points, and whose every point except the first
satisfies the passability predicate. -/
theorem path_success_sound (N : Topology) (allow : V2i → Bool) (start goal : V2i)
    (fuel : Nat) (l : List V2i)
    (h : path N start goal allow fuel = some (.ok l)) :
    l ≠ [] ∧ l.head? = some start ∧ l.getLast? = some goal ∧
    List.Chain' (fun a b => b ∈ neighborsList N a) l ∧
    (∀ x ∈ l.tail, allow x = true) := by
  have hinv : SearchInv N allow start [] [(start, 0)] [⟨start, 0⟩] := by
    refine ⟨?_, ?_, ?_, ?_⟩
    · show (if start = start then some 0 else alLookup [] start) = some 0
      rw [if_pos rfl]
    · intro q r hq
      exact absurd hq (by simp [alLookup])
    · intro q hq
      left
      by_contra hne
      have hnone : alLookup [(start, 0)] q = none := by
        show (if q = start then some 0 else alLookup [] q) = none
        rw [if_neg hne]
        rfl
      rw [hnone] at hq
      exact absurd hq (by simp)
    · intro s hs
      rw [List.mem_singleton] at hs
      subst hs
      show ((if start = start then some 0 else alLookup [] start)).isSome = true
      rw [if_pos rfl]
      rfl
  exact searchLoop_sound N allow start goal fuel [] [(start, 0)] [⟨start, 0⟩] l hinv h

/-- Witness for C9: a concrete successful query whose returned path satisfies
all five conclusions. -/
theorem path_success_sound_witness :
    ([(⟨0, 0⟩ : V2i), ⟨1, 0⟩] ≠ []) ∧
    ([(⟨0, 0⟩ : V2i), ⟨1, 0⟩].head? = some ⟨0, 0⟩) ∧
    ([(⟨0, 0⟩ : V2i), ⟨1, 0⟩].getLast? = some ⟨1, 0⟩) ∧
    List.Chain' (fun a b => b ∈ neighborsList .L1 a) [(⟨0, 0⟩ : V2i), ⟨1, 0⟩] ∧
    (∀ x ∈ [(⟨0, 0⟩ : V2i), ⟨1, 0⟩].tail, (fun _ : V2i => true) x = true) :=
  path_success_sound .L1 (fun _ => true) ⟨0, 0⟩ ⟨1, 0⟩ 10 [⟨0, 0⟩, ⟨1, 0⟩] (by decide)

theorem relaxOne_agree (a1 a2 : V2i → Bool) (start goal current : V2i)
    (b : List (V2i × V2i)) (c : List (V2i × Nat)) (o : List State) (nb : V2i)
    (hagree : ∀ q, q ≠ start → a1 q = a2 q)
    (hD : alLookup c start = some 0)
    (hcur : (alLookup c current).isSome = true) :
    relaxOne a1 goal current (b, c, o) nb = relaxOne a2 goal current (b, c, o) nb := by
  by_cases hnb : nb = start
  · subst hnb
    obtain ⟨g, hg⟩ := Option.isSome_iff_exists.mp hcur
    unfold relaxOne
    rw [hg]
    dsimp only
    rw [hD]
    dsimp only
    have hdec : decide (g + 1 < 0) = false := by simp
    rw [hdec]
    cases h1 : a1 nb <;> cases h2 : a2 nb <;> simp
  · have hq := hagree nb hnb
    unfold relaxOne
    rw [hq]

theorem relaxAll_agree (N : Topology) (a1 a2 : V2i → Bool) (start goal current : V2i)
    (hagree : ∀ q, q ≠ start → a1 q = a2 q) :
    ∀ (ns : List V2i) (b : List (V2i × V2i)) (c : List (V2i × Nat)) (o : List State),
      (∀ nb ∈ ns, nb ∈ neighborsList N current) →
      SearchInv N a1 start b c o →
      (alLookup c current).isSome = true →
      relaxAll a1 goal current ns (b, c, o) = relaxAll a2 goal current ns (b, c, o) := by
  intro ns
  induction ns with
  | nil =>
    intro b c o hns hinv hcur
    rfl
  | cons nb rest ih =>
    intro b c o hns hinv hcur
    unfold relaxAll
    rw [← relaxOne_agree a1 a2 start goal current b c o nb hagree hinv.1 hcur]
    cases hr : relaxOne a1 goal current (b, c, o) nb with
    | none => rfl
    | some st2 =>
      obtain ⟨bb, cc, oo⟩ := st2
      obtain ⟨hinv2, hmono⟩ := relaxOne_inv N a1 start goal current b c o nb bb cc oo hr
        (hns nb (List.mem_cons_self _ _)) hinv
      exact ih bb cc oo (fun x hx => hns x (List.mem_cons_of_mem _ hx)) hinv2
        (hmono current hcur)

theorem searchLoop_agree (N : Topology) (a1 a2 : V2i → Bool) (start goal : V2i)
    (hagree : ∀ q, q ≠ start → a1 q = a2 q) :
    ∀ (fuel : Nat) (back : List (V2i × V2i)) (cost : List (V2i × Nat))
      (openS : List State),
      SearchInv N a1 start back cost openS →
      searchLoop N a1 goal fuel back cost openS =
        searchLoop N a2 goal fuel back cost openS := by
  intro fuel
  induction fuel with
  | zero =>
    intro back cost openS hinv
    rfl
  | succ n ih =>
    intro back cost openS hinv
    unfold searchLoop
    cases hpop : heapPop openS with
    | none => rfl
    | some pr =>
      obtain ⟨visit, open1⟩ := pr
      dsimp only
      by_cases hvg : visit.node = goal
      · rw [if_pos hvg, if_pos hvg]
      · rw [if_neg hvg, if_neg hvg]
        obtain ⟨hD, hA, hB, hC⟩ := hinv
        have hvmem := (heapPop_mem openS open1 visit hpop).1
        have hopensub := (heapPop_mem openS open1 visit hpop).2
        have hinv1 : SearchInv N a1 start back cost open1 :=
          ⟨hD, hA, hB, fun s hs => hC s (hopensub s hs)⟩
        have hcur : (alLookup cost visit.node).isSome = true := hC visit hvmem
        rw [← relaxAll_agree N a1 a2 start goal visit.node hagree
          (neighborsList N visit.node) back cost open1 (fun nb hnb => hnb) hinv1 hcur]
        cases hrel : relaxAll a1 goal visit.node (neighborsList N visit.node)
            (back, cost, open1) with
        | none => rfl
        | some st2 =>
          obtain ⟨b2, c2, o2⟩ := st2
          dsimp only
          obtain ⟨hinv2, -⟩ := relaxAll_inv N a1 start goal visit.node
            (neighborsList N visit.node) back cost open1 b2 c2 o2 hrel
            (fun nb hnb => hnb) hinv1
          exact ih b2 c2 o2 hinv2

/-- The initial search state satisfies the invariant, for any start point and
passability predicate. -/
theorem initial_SearchInv (N : Topology) (allow : V2i → Bool) (start : V2i) :
    SearchInv N allow start [] [(start, 0)] [⟨start, 0⟩] := by
  refine ⟨?_, ?_, ?_, ?_⟩
  · show (if start = start then some 0 else alLookup [] start) = some 0
    rw [if_pos rfl]
  · intro q r hq
    exact absurd hq (by simp [alLookup])
  · intro q hq
    left
    by_contra hne
    have hnone : alLookup [(start, 0)] q = none := by
      show (if q = start then some 0 else alLookup [] q) = none
      rw [if_neg hne]
      rfl
    rw [hnone] at hq
    exact absurd hq (by simp)
  · intro s hs
    rw [List.mem_singleton] at hs
    subst hs
    show ((if start = start then some 0 else alLookup [] start)).isSome = true
    rw [if_pos rfl]
    rfl

/-- Counterexample to C10 as stated: with everything passable, the 4-connected
search from `(0,0)` to `(2,0)` expands `(1,0)`, whose generated neighbors
include the start point — so the passability predicate is invoked on the
start (as recorded by the call-trace model `pathCalls`). -/
theorem allow_called_on_start_counterexample :
    (⟨0, 0⟩ : V2i) ∈ (pathCalls .L1 ⟨0, 0⟩ ⟨2, 0⟩ (fun _ => true) 10).getD [] := by
  decide

/-- C10 (amended): the passability predicate is only ever consulted on
generated neighbors, so its value at the start point never affects the search
result (two predicates agreeing away from the start yield identical results),
and `path(start, start, allow)` returns `Ok([start])` immediately, even when
`allow(start)` is false. -/
theorem path_start_passability_irrelevant :
    (∀ (N : Topology) (start goal : V2i) (a1 a2 : V2i → Bool) (fuel : Nat),
      (∀ q, q ≠ start → a1 q = a2 q) →
      path N start goal a1 fuel = path N start goal a2 fuel) ∧
    (∀ (N : Topology) (start : V2i) (allow : V2i → Bool) (fuel : Nat),
      path N start start allow (fuel + 1) = some (.ok [start])) := by
  constructor
  · intro N start goal a1 a2 fuel hagree
    exact searchLoop_agree N a1 a2 start goal hagree fuel [] [(start, 0)] [⟨start, 0⟩]
      (initial_SearchInv N a1 start)
  · intro N start allow fuel
    unfold path searchLoop
    have hpop : heapPop [(⟨start, 0⟩ : State)] = some (⟨start, 0⟩, []) := rfl
    rw [hpop]
    dsimp only
    rw [if_pos rfl]
    rfl

/-- Witness for the amended C10: concrete predicates agreeing away from the
start give the same concrete result, and a start-equals-goal query returns
`Ok([start])` under an all-false predicate. -/
theorem path_start_passability_irrelevant_witness :
    (path .L1 ⟨0, 0⟩ ⟨1, 0⟩ (fun _ => true) 5 =
      path .L1 ⟨0, 0⟩ ⟨1, 0⟩ (fun q => decide (q ≠ ⟨0, 0⟩)) 5) ∧
    (path .L1 ⟨0, 0⟩ ⟨0, 0⟩ (fun _ => false) 5 = some (.ok [⟨0, 0⟩])) :=
  ⟨path_start_passability_irrelevant.1 .L1 ⟨0, 0⟩ ⟨1, 0⟩ (fun _ => true)
      (fun q => decide (q ≠ ⟨0, 0⟩)) 5 (fun q hq => by simp [hq]),
   path_start_passability_irrelevant.2 .L1 ⟨0, 0⟩ (fun _ => false) 4⟩
